import Mathlib

/-!
Verification development for the yjs-server repository.

The definitions below are a shallow embedding of the connection admission
pipeline (`createYjsServer` / `handleConnection` / `bufferUntilReady`), the
room lifecycle (`Room`, `makeRoom`, `getOrCreateRoom`, `handleClose`), the
socket helper `send`, and the default document-name extraction function
`defaultDocNameFromRequest`.  Event-driven callback code is embedded as
explicit trace processing: the inbound stream of a connection is a list of
events (binary/text frames, gate resolutions, the close event) consumed in
order by the phase that is currently listening, matching the single-threaded
cooperative scheduling of the source.
-/

namespace YjsServer

/-- Close codes from the CloseReason enum in types.ts. -/
def CloseReason.NORMAL : Nat := 1000

/-- Close code 1003 (unsupported). -/
def CloseReason.UNSUPPORTED : Nat := 1003

/-- Close code 1011 (internal error). -/
def CloseReason.INTERNAL_ERROR : Nat := 1011

/-- readyState constant CONNECTING from internal.ts. -/
def CONNECTING : Nat := 0

/-- readyState constant OPEN from internal.ts. -/
def OPEN : Nat := 1

/-- Default for maxBufferedBytesBeforeConnect in createYjsServer:
the source writes `1024 * 5` and comments it as 5MB. -/
def defaultMaxBufferedBytesBeforeConnect : Nat := 1024 * 5

/-- Default for maxBufferedBytes in createYjsServer: `1024 * 1024 * 100`. -/
def defaultMaxBufferedBytes : Nat := 1024 * 1024 * 100

/-- A websocket frame: binary data (modelled as its byte list) or a
non-binary (string) frame. -/
inductive Frame
  | bin (data : List Nat)
  | text
  deriving DecidableEq

/-- byteLength of a frame's payload. -/
def Frame.byteLength : Frame → Nat
  | .bin d => d.length
  | .text => 0

/-- Events observed by one connection, in arrival order: inbound frames,
resolution or rejection of the shouldConnect gate, resolution of the room
load gate, and the close event of the socket. -/
inductive Event
  | frame (f : Frame)
  | authResolved (b : Bool)
  | authRejected
  | loadResolved (ok : Bool)
  | closeEvt
  deriving DecidableEq

/-- Observable actions performed by the server code on behalf of one
connection. -/
inductive Action
  | closeConn (code : Nat)
  | terminate
  | logError
  | logWarn
  | setBinaryType
  | addMessageListener
  | removeMessageListener
  | addCloseListener
  | removeCloseListener
  | extractDocName
  | roomLookup (name : String)
  | attachRoom (name : String)
  | installKeepAlive
  | sendInitialSync
  | sendData
  | handlerCall (f : Frame)
  | detachRoom
  deriving DecidableEq

/-- Which gate a bufferUntilReady call is awaiting: the shouldConnect
promise or the room loadPromise. -/
inductive Phase
  | auth
  | load
  deriving DecidableEq

/-- Outcome of the Promise.race inside bufferUntilReady: the gate (or the
close race) resolved with a boolean, or the gate rejected. -/
inductive GateOutcome
  | resolved (b : Bool)
  | rejected
  deriving DecidableEq

/-- Result of one bufferUntilReady phase: the race outcome (none when no
resolving event occurs in the trace), the buffered messages, whether the
socket is still open, the actions performed, the consumed prefix of the
event trace and the remaining suffix. -/
structure BufResult where
  outcome : Option GateOutcome
  messages : List (List Nat)
  connOpen : Bool
  actions : List Action
  consumed : List Event
  rest : List Event
  deriving DecidableEq

/-- The event loop of bufferUntilReady: processes events in order.  Binary
frames are appended to the buffer while the running byte total stays within
maxSize; an overflow or a non-binary frame logs a warning and terminates
the connection (the onMessage handler ignores frames once the socket is
closing or closed).  The close event clears the buffer and resolves the
race with false; a resolution event of the awaited gate ends the phase. -/
def bufferLoop (phase : Phase) (maxSize : Nat) :
    List Event → List (List Nat) → Nat → Bool → BufResult
  | [], msgs, _, conn => ⟨none, msgs, conn, [], [], []⟩
  | e :: rest, msgs, size, conn =>
    match e with
    | .frame f =>
      if conn then
        match f with
        | .bin d =>
          let size' := size + d.length
          if size' ≤ maxSize then
            let r := bufferLoop phase maxSize rest (msgs ++ [d]) size' conn
            { r with consumed := e :: r.consumed }
          else
            let r := bufferLoop phase maxSize rest msgs size' false
            { r with actions := Action.logWarn :: Action.terminate :: r.actions,
                     consumed := e :: r.consumed }
        | .text =>
          let r := bufferLoop phase maxSize rest msgs size false
          { r with actions := Action.logWarn :: Action.terminate :: r.actions,
                   consumed := e :: r.consumed }
      else
        let r := bufferLoop phase maxSize rest msgs size conn
        { r with consumed := e :: r.consumed }
    | .closeEvt => ⟨some (.resolved false), [], false, [], [e], rest⟩
    | .authResolved b =>
      if phase = .auth then ⟨some (.resolved b), msgs, conn, [], [e], rest⟩
      else
        let r := bufferLoop phase maxSize rest msgs size conn
        { r with consumed := e :: r.consumed }
    | .authRejected =>
      if phase = .auth then ⟨some .rejected, msgs, conn, [], [e], rest⟩
      else
        let r := bufferLoop phase maxSize rest msgs size conn
        { r with consumed := e :: r.consumed }
    | .loadResolved b =>
      if phase = .load then ⟨some (.resolved b), msgs, conn, [], [e], rest⟩
      else
        let r := bufferLoop phase maxSize rest msgs size conn
        { r with consumed := e :: r.consumed }

/-- bufferUntilReady: seeds the running byte total from the already
buffered messages, subscribes the message and close listeners, runs the
race, and unsubscribes on exit (the finally block runs only when the race
settles). -/
def bufferUntilReady (phase : Phase) (maxSize : Nat) (events : List Event)
    (msgs : List (List Nat)) (conn : Bool) : BufResult :=
  let size0 := (msgs.map List.length).sum
  let r := bufferLoop phase maxSize events msgs size0 conn
  { r with
    actions :=
      [Action.addMessageListener, Action.addCloseListener] ++ r.actions ++
        (if r.outcome.isSome then
          [Action.removeCloseListener, Action.removeMessageListener]
        else []) }

/-- Per-server buffering configuration of createYjsServer. -/
structure ServerCfg where
  maxBufferedBytesBeforeConnect : Nat
  maxBufferedBytes : Nat
  deriving DecidableEq

/-- The configuration produced when createYjsServer receives no explicit
buffer options. -/
def defaultCfg : ServerCfg :=
  ⟨defaultMaxBufferedBytesBeforeConnect, defaultMaxBufferedBytes⟩

/-- One step of the post-admission message handler installed by
setupNewConnection: every invocation is recorded; inside it, frames are
ignored when the socket is closing or closed; a binary frame whose
processing throws, or a non-binary frame, logs an error and closes the
connection with UNSUPPORTED. -/
def handleMessageStep (decodeOk : List Nat → Bool) (conn : Bool) (f : Frame) :
    List Action × Bool :=
  if conn then
    match f with
    | .bin d =>
      if decodeOk d then ([Action.handlerCall f], conn)
      else ([Action.handlerCall f, Action.logError,
             Action.closeConn CloseReason.UNSUPPORTED], false)
    | .text =>
      ([Action.handlerCall f, Action.logError,
        Action.closeConn CloseReason.UNSUPPORTED], false)
  else ([Action.handlerCall f], conn)

/-- The synchronous replay of the buffered messages through the installed
handler (`bufferedMessages.forEach((data) => handleMessage({ data }))`). -/
def replayLoop (decodeOk : List Nat → Bool) :
    List (List Nat) → Bool → List Action × Bool
  | [], conn => ([], conn)
  | d :: rest, conn =>
    let s := handleMessageStep decodeOk conn (.bin d)
    let r := replayLoop decodeOk rest s.2
    (s.1 ++ r.1, r.2)

/-- Steady-state processing of the events following admission: frame
events invoke the installed handler, the close event runs handleClose and
ends the connection's event stream; other events are not listened to. -/
def liveLoop (decodeOk : List Nat → Bool) :
    List Event → Bool → List Action
  | [], _ => []
  | .frame f :: rest, conn =>
    let s := handleMessageStep decodeOk conn f
    s.1 ++ liveLoop decodeOk rest s.2
  | .closeEvt :: _, _ => [Action.detachRoom]
  | .authResolved _ :: rest, conn => liveLoop decodeOk rest conn
  | .authRejected :: rest, conn => liveLoop decodeOk rest conn
  | .loadResolved _ :: rest, conn => liveLoop decodeOk rest conn

/-- Where a handleConnection call ended. -/
inductive AdmOutcome
  | earlyClosed
  | ignoredClosing
  | pending
  | terminated
  | authDenied
  | badName
  | loadFailed
  | setupFailed
  | attached
  deriving DecidableEq

/-- The full observable run of one handleConnection call. -/
structure ConnRun where
  actions : List Action
  outcome : AdmOutcome
  buffered : List (List Nat)
  preEvents : List Event
  liveEvents : List Event
  deriving DecidableEq

/-- handleConnection of createYjsServer: rejects with a NORMAL close when
the server is closed; ignores sockets that are already closing or closed;
otherwise buffers frames while awaiting shouldConnect (terminating on
rejection), extracts the document name, looks up or creates the room,
buffers while awaiting the room load, and on success attaches the
connection, installs the handlers and keep-alive, sends the initial sync,
replays the buffered frames through the installed handler and processes
the remaining live traffic. -/
def handleConnection (cfg : ServerCfg) (isClosed : Bool) (connOpen0 : Bool)
    (docName : Option String) (decodeOk : List Nat → Bool)
    (events : List Event) : ConnRun :=
  if isClosed then
    ⟨[Action.closeConn CloseReason.NORMAL], .earlyClosed, [], events, []⟩
  else if !connOpen0 then
    ⟨[Action.logWarn], .ignoredClosing, [], events, []⟩
  else
    let r1 := bufferUntilReady .auth cfg.maxBufferedBytesBeforeConnect events [] true
    let acts0 := Action.setBinaryType :: r1.actions
    match r1.outcome with
    | none => ⟨acts0, .pending, [], events, []⟩
    | some .rejected =>
      ⟨acts0 ++ [Action.logError, Action.terminate], .terminated, [], events, []⟩
    | some (.resolved false) => ⟨acts0, .authDenied, [], events, []⟩
    | some (.resolved true) =>
      match docName with
      | none =>
        ⟨acts0 ++ [Action.extractDocName,
          Action.closeConn CloseReason.UNSUPPORTED, Action.logError],
         .badName, [], events, []⟩
      | some n =>
        if n.isEmpty then
          ⟨acts0 ++ [Action.extractDocName,
            Action.closeConn CloseReason.UNSUPPORTED, Action.logError],
           .badName, [], events, []⟩
        else
          let r2 := bufferUntilReady .load cfg.maxBufferedBytes r1.rest
            r1.messages r1.connOpen
          let acts1 := acts0 ++
            [Action.extractDocName, Action.roomLookup n] ++ r2.actions
          match r2.outcome with
          | none => ⟨acts1, .pending, [], events, []⟩
          | some .rejected =>
            ⟨acts1 ++ [Action.logError,
              Action.closeConn CloseReason.INTERNAL_ERROR],
             .setupFailed, [], events, []⟩
          | some (.resolved false) =>
            ⟨acts1 ++ [Action.closeConn CloseReason.INTERNAL_ERROR],
             .loadFailed, [], events, []⟩
          | some (.resolved true) =>
            if !r2.connOpen then
              ⟨acts1 ++ [Action.logError,
                Action.closeConn CloseReason.INTERNAL_ERROR],
               .setupFailed, [], events, []⟩
            else
              let setupActs := [Action.attachRoom n, Action.addCloseListener,
                Action.addMessageListener, Action.installKeepAlive,
                Action.sendInitialSync]
              let rep := replayLoop decodeOk r2.messages true
              let liveActs := liveLoop decodeOk r2.rest rep.2
              ⟨acts1 ++ setupActs ++ rep.1 ++ liveActs, .attached, r2.messages,
               r1.consumed ++ r2.consumed, r2.rest⟩

/-- The binary payloads carried by the frame events of a trace segment, in
arrival order. -/
def binData (events : List Event) : List (List Nat) :=
  events.filterMap fun e =>
    match e with
    | .frame (.bin d) => some d
    | _ => none

/-- The frames of a trace segment that are dispatched to the installed
message listener: every frame before the close event. -/
def framesUntilClose : List Event → List Frame
  | [] => []
  | .frame f :: rest => f :: framesUntilClose rest
  | .closeEvt :: _ => []
  | .authResolved _ :: rest => framesUntilClose rest
  | .authRejected :: rest => framesUntilClose rest
  | .loadResolved _ :: rest => framesUntilClose rest

/-- The sequence of frames with which the post-admission message handler
was invoked during a run. -/
def handlerFrames (acts : List Action) : List Frame :=
  acts.filterMap fun a =>
    match a with
    | .handlerCall f => some f
    | _ => none

/-- Decides whether, for the given phase, the close event occurs in the
trace strictly before any event resolving that phase's gate. -/
def closeFirst (phase : Phase) : List Event → Bool
  | [] => false
  | .closeEvt :: _ => true
  | .frame _ :: rest => closeFirst phase rest
  | .authResolved _ :: rest => if phase = .auth then false else closeFirst phase rest
  | .authRejected :: rest => if phase = .auth then false else closeFirst phase rest
  | .loadResolved _ :: rest => if phase = .load then false else closeFirst phase rest

theorem bufferLoop_consumed_append (phase : Phase) (maxSize : Nat) :
    ∀ (events : List Event) (msgs : List (List Nat)) (size : Nat) (conn : Bool),
      (bufferLoop phase maxSize events msgs size conn).consumed ++
        (bufferLoop phase maxSize events msgs size conn).rest = events := by
  intro events
  induction events with
  | nil => intro msgs size conn; simp [bufferLoop]
  | cons e rest ih =>
    intro msgs size conn
    cases e with
    | frame f =>
      cases f with
      | bin d =>
        by_cases hc : conn
        · subst hc
          simp only [bufferLoop, if_true]
          by_cases hs : size + d.length ≤ maxSize
          · simp [hs, ih]
          · simp [hs, ih]
        · simp only [Bool.not_eq_true] at hc
          subst hc
          simp [bufferLoop, ih]
      | text =>
        by_cases hc : conn
        · subst hc; simp [bufferLoop, ih]
        · simp only [Bool.not_eq_true] at hc
          subst hc
          simp [bufferLoop, ih]
    | closeEvt => simp [bufferLoop]
    | authResolved b =>
      cases phase with
      | auth => simp [bufferLoop]
      | load => simp [bufferLoop, ih]
    | authRejected =>
      cases phase with
      | auth => simp [bufferLoop]
      | load => simp [bufferLoop, ih]
    | loadResolved b =>
      cases phase with
      | auth => simp [bufferLoop, ih]
      | load => simp [bufferLoop]

theorem bufferLoop_connOpen_mono (phase : Phase) (maxSize : Nat) :
    ∀ (events : List Event) (msgs : List (List Nat)) (size : Nat) (conn : Bool),
      (bufferLoop phase maxSize events msgs size conn).connOpen = true →
        conn = true := by
  intro events
  induction events with
  | nil => intro msgs size conn h; simpa [bufferLoop] using h
  | cons e rest ih =>
    intro msgs size conn h
    cases e with
    | frame f =>
      cases f with
      | bin d =>
        by_cases hc : conn
        · exact hc
        · simp only [Bool.not_eq_true] at hc
          subst hc
          simp only [bufferLoop, Bool.false_eq_true, if_false] at h
          exact ih _ _ _ h
      | text =>
        by_cases hc : conn
        · exact hc
        · simp only [Bool.not_eq_true] at hc
          subst hc
          simp only [bufferLoop, Bool.false_eq_true, if_false] at h
          exact ih _ _ _ h
    | closeEvt => simp [bufferLoop] at h
    | authResolved b =>
      cases phase with
      | auth => simpa [bufferLoop] using h
      | load =>
        simp only [bufferLoop, reduceCtorEq, if_neg] at h
        exact ih _ _ _ h
    | authRejected =>
      cases phase with
      | auth => simpa [bufferLoop] using h
      | load =>
        simp only [bufferLoop, reduceCtorEq, if_neg] at h
        exact ih _ _ _ h
    | loadResolved b =>
      cases phase with
      | auth =>
        simp only [bufferLoop, reduceCtorEq, if_neg] at h
        exact ih _ _ _ h
      | load => simpa [bufferLoop] using h

theorem bufferLoop_messages_of_open (phase : Phase) (maxSize : Nat) :
    ∀ (events : List Event) (msgs : List (List Nat)) (size : Nat) (conn : Bool)
      (b : Bool),
      (bufferLoop phase maxSize events msgs size conn).outcome =
          some (.resolved b) →
      (bufferLoop phase maxSize events msgs size conn).connOpen = true →
        (bufferLoop phase maxSize events msgs size conn).messages =
          msgs ++ binData (bufferLoop phase maxSize events msgs size conn).consumed := by
  intro events
  induction events with
  | nil => intro msgs size conn b h; simp [bufferLoop] at h
  | cons e rest ih =>
    intro msgs size conn b h hop
    cases e with
    | frame f =>
      cases f with
      | bin d =>
        by_cases hc : conn
        · subst hc
          by_cases hs : size + d.length ≤ maxSize
          · simp only [bufferLoop, if_true, hs, if_pos] at h hop ⊢
            rw [ih _ _ _ b h hop]
            simp [binData]
          · simp only [bufferLoop, if_true, hs, if_neg, Bool.false_eq_true,
              not_false_eq_true] at h hop ⊢
            exact absurd (bufferLoop_connOpen_mono _ _ _ _ _ _ hop) (by simp)
        · simp only [Bool.not_eq_true] at hc
          subst hc
          simp only [bufferLoop, Bool.false_eq_true, if_false] at h hop ⊢
          exact absurd (bufferLoop_connOpen_mono _ _ _ _ _ _ hop) (by simp)
      | text =>
        by_cases hc : conn
        · subst hc
          simp only [bufferLoop, if_true] at h hop ⊢
          exact absurd (bufferLoop_connOpen_mono _ _ _ _ _ _ hop) (by simp)
        · simp only [Bool.not_eq_true] at hc
          subst hc
          simp only [bufferLoop, Bool.false_eq_true, if_false] at h hop ⊢
          exact absurd (bufferLoop_connOpen_mono _ _ _ _ _ _ hop) (by simp)
    | closeEvt => simp [bufferLoop] at hop
    | authResolved c =>
      cases phase with
      | auth => simp [bufferLoop, binData]
      | load =>
        simp only [bufferLoop, reduceCtorEq, if_neg] at h hop ⊢
        rw [ih _ _ _ b h hop]
        simp [binData]
    | authRejected =>
      cases phase with
      | auth => simp [bufferLoop] at h
      | load =>
        simp only [bufferLoop, reduceCtorEq, if_neg] at h hop ⊢
        rw [ih _ _ _ b h hop]
        simp [binData]
    | loadResolved c =>
      cases phase with
      | auth =>
        simp only [bufferLoop, reduceCtorEq, if_neg] at h hop ⊢
        rw [ih _ _ _ b h hop]
        simp [binData]
      | load => simp [bufferLoop, binData]

theorem bufferLoop_actions_sub (phase : Phase) (maxSize : Nat) :
    ∀ (events : List Event) (msgs : List (List Nat)) (size : Nat) (conn : Bool)
      (a : Action),
      a ∈ (bufferLoop phase maxSize events msgs size conn).actions →
        a = Action.logWarn ∨ a = Action.terminate := by
  intro events
  induction events with
  | nil => intro msgs size conn a h; simp [bufferLoop] at h
  | cons e rest ih =>
    intro msgs size conn a h
    cases e with
    | frame f =>
      cases f with
      | bin d =>
        by_cases hc : conn
        · subst hc
          by_cases hs : size + d.length ≤ maxSize
          · simp only [bufferLoop, if_true, hs, if_pos] at h
            exact ih _ _ _ _ h
          · simp only [bufferLoop, if_true, hs, if_neg, not_false_eq_true,
              List.mem_cons] at h
            rcases h with h | h | h
            · exact Or.inl h
            · exact Or.inr h
            · exact ih _ _ _ _ h
        · simp only [Bool.not_eq_true] at hc
          subst hc
          simp only [bufferLoop, Bool.false_eq_true, if_false] at h
          exact ih _ _ _ _ h
      | text =>
        by_cases hc : conn
        · subst hc
          simp only [bufferLoop, if_true, List.mem_cons] at h
          rcases h with h | h | h
          · exact Or.inl h
          · exact Or.inr h
          · exact ih _ _ _ _ h
        · simp only [Bool.not_eq_true] at hc
          subst hc
          simp only [bufferLoop, Bool.false_eq_true, if_false] at h
          exact ih _ _ _ _ h
    | closeEvt => simp [bufferLoop] at h
    | authResolved c =>
      cases phase with
      | auth => simp [bufferLoop] at h
      | load =>
        simp only [bufferLoop, reduceCtorEq, if_neg] at h
        exact ih _ _ _ _ h
    | authRejected =>
      cases phase with
      | auth => simp [bufferLoop] at h
      | load =>
        simp only [bufferLoop, reduceCtorEq, if_neg] at h
        exact ih _ _ _ _ h
    | loadResolved c =>
      cases phase with
      | auth =>
        simp only [bufferLoop, reduceCtorEq, if_neg] at h
        exact ih _ _ _ _ h
      | load => simp [bufferLoop] at h

theorem bufferLoop_closeFirst (phase : Phase) (maxSize : Nat) :
    ∀ (events : List Event) (msgs : List (List Nat)) (size : Nat) (conn : Bool),
      closeFirst phase events = true →
        (bufferLoop phase maxSize events msgs size conn).outcome =
            some (.resolved false) ∧
          (bufferLoop phase maxSize events msgs size conn).messages = [] := by
  intro events
  induction events with
  | nil => intro msgs size conn h; simp [closeFirst] at h
  | cons e rest ih =>
    intro msgs size conn h
    cases e with
    | frame f =>
      simp only [closeFirst] at h
      cases f with
      | bin d =>
        by_cases hc : conn
        · subst hc
          by_cases hs : size + d.length ≤ maxSize
          · simpa [bufferLoop, hs] using ih _ _ _ h
          · simpa [bufferLoop, hs] using ih _ _ _ h
        · simp only [Bool.not_eq_true] at hc
          subst hc
          simpa [bufferLoop] using ih _ _ _ h
      | text =>
        by_cases hc : conn
        · subst hc
          simpa [bufferLoop] using ih _ _ _ h
        · simp only [Bool.not_eq_true] at hc
          subst hc
          simpa [bufferLoop] using ih _ _ _ h
    | closeEvt => simp [bufferLoop]
    | authResolved c =>
      cases phase with
      | auth => simp [closeFirst] at h
      | load =>
        simp only [closeFirst, reduceCtorEq, if_neg] at h
        simpa [bufferLoop] using ih _ _ _ h
    | authRejected =>
      cases phase with
      | auth => simp [closeFirst] at h
      | load =>
        simp only [closeFirst, reduceCtorEq, if_neg] at h
        simpa [bufferLoop] using ih _ _ _ h
    | loadResolved c =>
      cases phase with
      | auth =>
        simp only [closeFirst, reduceCtorEq, if_neg] at h
        simpa [bufferLoop] using ih _ _ _ h
      | load => simp [closeFirst] at h

theorem bufferUntilReady_outcome (phase : Phase) (maxSize : Nat)
    (events : List Event) (msgs : List (List Nat)) (conn : Bool) :
    (bufferUntilReady phase maxSize events msgs conn).outcome =
      (bufferLoop phase maxSize events msgs ((msgs.map List.length).sum) conn).outcome := rfl

theorem bufferUntilReady_messages (phase : Phase) (maxSize : Nat)
    (events : List Event) (msgs : List (List Nat)) (conn : Bool) :
    (bufferUntilReady phase maxSize events msgs conn).messages =
      (bufferLoop phase maxSize events msgs ((msgs.map List.length).sum) conn).messages := rfl

theorem bufferUntilReady_connOpen (phase : Phase) (maxSize : Nat)
    (events : List Event) (msgs : List (List Nat)) (conn : Bool) :
    (bufferUntilReady phase maxSize events msgs conn).connOpen =
      (bufferLoop phase maxSize events msgs ((msgs.map List.length).sum) conn).connOpen := rfl

theorem bufferUntilReady_consumed (phase : Phase) (maxSize : Nat)
    (events : List Event) (msgs : List (List Nat)) (conn : Bool) :
    (bufferUntilReady phase maxSize events msgs conn).consumed =
      (bufferLoop phase maxSize events msgs ((msgs.map List.length).sum) conn).consumed := rfl

theorem bufferUntilReady_rest (phase : Phase) (maxSize : Nat)
    (events : List Event) (msgs : List (List Nat)) (conn : Bool) :
    (bufferUntilReady phase maxSize events msgs conn).rest =
      (bufferLoop phase maxSize events msgs ((msgs.map List.length).sum) conn).rest := rfl

theorem bufferUntilReady_actions_sub (phase : Phase) (maxSize : Nat)
    (events : List Event) (msgs : List (List Nat)) (conn : Bool) (a : Action)
    (h : a ∈ (bufferUntilReady phase maxSize events msgs conn).actions) :
    a = Action.addMessageListener ∨ a = Action.addCloseListener ∨
      a = Action.removeCloseListener ∨ a = Action.removeMessageListener ∨
      a = Action.logWarn ∨ a = Action.terminate := by
  simp only [bufferUntilReady, List.mem_append, List.mem_cons,
    List.mem_singleton] at h
  rcases h with ((h | h) | h) | h
  · exact Or.inl h
  · exact Or.inr (Or.inl (by simpa using h))
  · rcases bufferLoop_actions_sub _ _ _ _ _ _ _ h with h | h
    · exact Or.inr (Or.inr (Or.inr (Or.inr (Or.inl h))))
    · exact Or.inr (Or.inr (Or.inr (Or.inr (Or.inr h))))
  · by_cases ho : (bufferLoop phase maxSize events msgs
        ((msgs.map List.length).sum) conn).outcome.isSome
    · simp only [ho, if_true, List.mem_cons, List.mem_singleton] at h
      rcases h with h | h
      · exact Or.inr (Or.inr (Or.inl h))
      · exact Or.inr (Or.inr (Or.inr (Or.inl (by simpa using h))))
    · simp [ho] at h

theorem handleMessageStep_handlerFrames (decodeOk : List Nat → Bool)
    (conn : Bool) (f : Frame) :
    handlerFrames (handleMessageStep decodeOk conn f).1 = [f] := by
  cases conn with
  | false => cases f <;> simp [handleMessageStep, handlerFrames]
  | true =>
    cases f with
    | text => simp [handleMessageStep, handlerFrames]
    | bin d =>
      by_cases hd : decodeOk d = true <;>
        simp [handleMessageStep, hd, handlerFrames]

theorem replayLoop_handlerFrames (decodeOk : List Nat → Bool) :
    ∀ (msgs : List (List Nat)) (conn : Bool),
      handlerFrames (replayLoop decodeOk msgs conn).1 = msgs.map Frame.bin := by
  intro msgs
  induction msgs with
  | nil => intro conn; simp [replayLoop, handlerFrames]
  | cons d rest ih =>
    intro conn
    simp only [replayLoop, List.map_cons]
    rw [handlerFrames, List.filterMap_append]
    rw [← handlerFrames, ← handlerFrames, handleMessageStep_handlerFrames, ih]
    simp

theorem liveLoop_handlerFrames (decodeOk : List Nat → Bool) :
    ∀ (events : List Event) (conn : Bool),
      handlerFrames (liveLoop decodeOk events conn) = framesUntilClose events := by
  intro events
  induction events with
  | nil => intro conn; simp [liveLoop, handlerFrames, framesUntilClose]
  | cons e rest ih =>
    intro conn
    cases e with
    | frame f =>
      simp only [liveLoop, framesUntilClose]
      rw [handlerFrames, List.filterMap_append]
      rw [← handlerFrames, ← handlerFrames, handleMessageStep_handlerFrames, ih]
      simp
    | closeEvt => simp [liveLoop, framesUntilClose, handlerFrames]
    | authResolved b => simpa [liveLoop, framesUntilClose] using ih conn
    | authRejected => simpa [liveLoop, framesUntilClose] using ih conn
    | loadResolved b => simpa [liveLoop, framesUntilClose] using ih conn

theorem handlerFrames_append (l1 l2 : List Action) :
    handlerFrames (l1 ++ l2) = handlerFrames l1 ++ handlerFrames l2 := by
  simp [handlerFrames]

theorem binData_append (l1 l2 : List Event) :
    binData (l1 ++ l2) = binData l1 ++ binData l2 := by
  simp [binData]

theorem handlerFrames_eq_nil (l : List Action)
    (h : ∀ a ∈ l, ∀ f, a ≠ Action.handlerCall f) : handlerFrames l = [] := by
  rw [handlerFrames, List.filterMap_eq_nil_iff]
  intro a ha
  cases a
  case handlerCall f => exact absurd rfl (h _ ha f)
  all_goals rfl

/-- Claim C1: every binary frame that arrives between the invocation of
handleConnection and the success of admission is, on successful admission,
delivered to the installed message handler in exactly arrival order, with
none dropped and none duplicated, and all of them before any later live
frame. -/
theorem handleConnection_no_loss_strict_order (cfg : ServerCfg)
    (docName : Option String) (decodeOk : List Nat → Bool) (events : List Event)
    (h : (handleConnection cfg false true docName decodeOk events).outcome =
      AdmOutcome.attached) :
    events =
        (handleConnection cfg false true docName decodeOk events).preEvents ++
          (handleConnection cfg false true docName decodeOk events).liveEvents ∧
      (handleConnection cfg false true docName decodeOk events).buffered =
        binData (handleConnection cfg false true docName decodeOk events).preEvents ∧
      handlerFrames
          (handleConnection cfg false true docName decodeOk events).actions =
        (binData
            (handleConnection cfg false true docName decodeOk events).preEvents).map
            Frame.bin ++
          framesUntilClose
            (handleConnection cfg false true docName decodeOk events).liveEvents := by
  simp only [handleConnection, Bool.not_true, Bool.false_eq_true, if_false] at h
  rcases ho1 : (bufferUntilReady Phase.auth cfg.maxBufferedBytesBeforeConnect
      events [] true).outcome with _ | go1
  · rw [ho1] at h; simp at h
  rcases go1 with b1 | _
  swap
  · rw [ho1] at h; simp at h
  rcases b1 with _ | _
  · rw [ho1] at h; simp at h
  rw [ho1] at h
  simp only at h
  rcases docName with _ | n
  · simp at h
  simp only at h
  by_cases hn : n.isEmpty
  · rw [if_pos hn] at h; simp at h
  rw [if_neg hn] at h
  rcases ho2 : (bufferUntilReady Phase.load cfg.maxBufferedBytes
      (bufferUntilReady Phase.auth cfg.maxBufferedBytesBeforeConnect events []
        true).rest
      (bufferUntilReady Phase.auth cfg.maxBufferedBytesBeforeConnect events []
        true).messages
      (bufferUntilReady Phase.auth cfg.maxBufferedBytesBeforeConnect events []
        true).connOpen).outcome with _ | go2
  · rw [ho2] at h; simp at h
  rcases go2 with b2 | _
  swap
  · rw [ho2] at h; simp at h
  rcases b2 with _ | _
  · rw [ho2] at h; simp at h
  rw [ho2] at h
  simp only at h
  by_cases hc2 : (bufferUntilReady Phase.load cfg.maxBufferedBytes
      (bufferUntilReady Phase.auth cfg.maxBufferedBytesBeforeConnect events []
        true).rest
      (bufferUntilReady Phase.auth cfg.maxBufferedBytesBeforeConnect events []
        true).messages
      (bufferUntilReady Phase.auth cfg.maxBufferedBytesBeforeConnect events []
        true).connOpen).connOpen
  case neg =>
    simp only [Bool.not_eq_true] at hc2
    rw [hc2] at h
    simp at h
  have hrun : handleConnection cfg false true (some n) decodeOk events =
      ⟨(Action.setBinaryType ::
          (bufferUntilReady Phase.auth cfg.maxBufferedBytesBeforeConnect events
            [] true).actions ++
          [Action.extractDocName, Action.roomLookup n] ++
          (bufferUntilReady Phase.load cfg.maxBufferedBytes
            (bufferUntilReady Phase.auth cfg.maxBufferedBytesBeforeConnect
              events [] true).rest
            (bufferUntilReady Phase.auth cfg.maxBufferedBytesBeforeConnect
              events [] true).messages
            (bufferUntilReady Phase.auth cfg.maxBufferedBytesBeforeConnect
              events [] true).connOpen).actions) ++
          [Action.attachRoom n, Action.addCloseListener,
            Action.addMessageListener, Action.installKeepAlive,
            Action.sendInitialSync] ++
          (replayLoop decodeOk
            (bufferUntilReady Phase.load cfg.maxBufferedBytes
              (bufferUntilReady Phase.auth cfg.maxBufferedBytesBeforeConnect
                events [] true).rest
              (bufferUntilReady Phase.auth cfg.maxBufferedBytesBeforeConnect
                events [] true).messages
              (bufferUntilReady Phase.auth cfg.maxBufferedBytesBeforeConnect
                events [] true).connOpen).messages true).1 ++
          liveLoop decodeOk
            (bufferUntilReady Phase.load cfg.maxBufferedBytes
              (bufferUntilReady Phase.auth cfg.maxBufferedBytesBeforeConnect
                events [] true).rest
              (bufferUntilReady Phase.auth cfg.maxBufferedBytesBeforeConnect
                events [] true).messages
              (bufferUntilReady Phase.auth cfg.maxBufferedBytesBeforeConnect
                events [] true).connOpen).rest
            (replayLoop decodeOk
              (bufferUntilReady Phase.load cfg.maxBufferedBytes
                (bufferUntilReady Phase.auth cfg.maxBufferedBytesBeforeConnect
                  events [] true).rest
                (bufferUntilReady Phase.auth cfg.maxBufferedBytesBeforeConnect
                  events [] true).messages
                (bufferUntilReady Phase.auth cfg.maxBufferedBytesBeforeConnect
                  events [] true).connOpen).messages true).2,
        AdmOutcome.attached,
        (bufferUntilReady Phase.load cfg.maxBufferedBytes
          (bufferUntilReady Phase.auth cfg.maxBufferedBytesBeforeConnect events
            [] true).rest
          (bufferUntilReady Phase.auth cfg.maxBufferedBytesBeforeConnect events
            [] true).messages
          (bufferUntilReady Phase.auth cfg.maxBufferedBytesBeforeConnect events
            [] true).connOpen).messages,
        (bufferUntilReady Phase.auth cfg.maxBufferedBytesBeforeConnect events
            [] true).consumed ++
          (bufferUntilReady Phase.load cfg.maxBufferedBytes
            (bufferUntilReady Phase.auth cfg.maxBufferedBytesBeforeConnect
              events [] true).rest
            (bufferUntilReady Phase.auth cfg.maxBufferedBytesBeforeConnect
              events [] true).messages
            (bufferUntilReady Phase.auth cfg.maxBufferedBytesBeforeConnect
              events [] true).connOpen).consumed,
        (bufferUntilReady Phase.load cfg.maxBufferedBytes
          (bufferUntilReady Phase.auth cfg.maxBufferedBytesBeforeConnect events
            [] true).rest
          (bufferUntilReady Phase.auth cfg.maxBufferedBytesBeforeConnect events
            [] true).messages
          (bufferUntilReady Phase.auth cfg.maxBufferedBytesBeforeConnect events
            [] true).connOpen).rest⟩ := by
    simp only [handleConnection, Bool.not_true, Bool.false_eq_true, if_false,
      ho1, hn, if_neg, ho2, hc2, Bool.not_true]
  rw [hrun]
  set r1 := bufferUntilReady Phase.auth cfg.maxBufferedBytesBeforeConnect
    events [] true with hr1
  set r2 := bufferUntilReady Phase.load cfg.maxBufferedBytes r1.rest
    r1.messages r1.connOpen with hr2
  have hA : r1.consumed ++ r1.rest = events := by
    rw [hr1, bufferUntilReady_consumed, bufferUntilReady_rest]
    exact bufferLoop_consumed_append _ _ _ _ _ _
  have hB : r2.consumed ++ r2.rest = r1.rest := by
    rw [hr2, bufferUntilReady_consumed, bufferUntilReady_rest]
    exact bufferLoop_consumed_append _ _ _ _ _ _
  have hopen1 : r1.connOpen = true :=
    bufferLoop_connOpen_mono Phase.load cfg.maxBufferedBytes r1.rest
      r1.messages ((r1.messages.map List.length).sum) r1.connOpen hc2
  have hm2 : r2.messages = r1.messages ++ binData r2.consumed :=
    bufferLoop_messages_of_open Phase.load cfg.maxBufferedBytes r1.rest
      r1.messages ((r1.messages.map List.length).sum) r1.connOpen true ho2 hc2
  have hm1 : r1.messages = [] ++ binData r1.consumed :=
    bufferLoop_messages_of_open Phase.auth cfg.maxBufferedBytesBeforeConnect
      events [] ((([] : List (List Nat)).map List.length).sum) true true ho1
      hopen1
  have hbuf : r2.messages = binData (r1.consumed ++ r2.consumed) := by
    rw [binData_append, hm2, hm1]
    simp
  refine ⟨?_, hbuf, ?_⟩
  · rw [List.append_assoc, hB, hA]
  · have hchunk1 : handlerFrames
        (Action.setBinaryType :: r1.actions ++
          [Action.extractDocName, Action.roomLookup n] ++ r2.actions) = [] := by
      refine handlerFrames_eq_nil _ ?_
      intro a ha f
      simp only [List.cons_append, List.mem_cons, List.mem_append,
        List.mem_singleton, or_assoc] at ha
      rcases ha with ha | ha | ha | ha | ha
      · subst ha; simp
      · rcases bufferUntilReady_actions_sub Phase.auth
            cfg.maxBufferedBytesBeforeConnect events [] true a ha with
          h5 | h5 | h5 | h5 | h5 | h5 <;> (subst h5; simp)
      · subst ha; simp
      · subst ha; simp
      · rcases ha with ha | ha
        · simp at ha
        · rcases bufferUntilReady_actions_sub Phase.load cfg.maxBufferedBytes
              r1.rest r1.messages r1.connOpen a ha with
            h5 | h5 | h5 | h5 | h5 | h5 <;> (subst h5; simp)
    have hchunk2 : handlerFrames
        [Action.attachRoom n, Action.addCloseListener,
          Action.addMessageListener, Action.installKeepAlive,
          Action.sendInitialSync] = [] := by
      simp [handlerFrames]
    rw [handlerFrames_append, handlerFrames_append, handlerFrames_append,
      hchunk1, hchunk2, replayLoop_handlerFrames, liveLoop_handlerFrames,
      hbuf]
    simp

theorem handleConnection_no_loss_strict_order_witness :
    ([Event.frame (Frame.bin [1]), Event.authResolved true,
        Event.frame (Frame.bin [2, 3]), Event.loadResolved true,
        Event.frame (Frame.bin [4])] : List Event) =
        (handleConnection defaultCfg false true (some "d")
              (fun _ => true)
              [Event.frame (Frame.bin [1]), Event.authResolved true,
                Event.frame (Frame.bin [2, 3]), Event.loadResolved true,
                Event.frame (Frame.bin [4])]).preEvents ++
          (handleConnection defaultCfg false true (some "d")
              (fun _ => true)
              [Event.frame (Frame.bin [1]), Event.authResolved true,
                Event.frame (Frame.bin [2, 3]), Event.loadResolved true,
                Event.frame (Frame.bin [4])]).liveEvents ∧
      (handleConnection defaultCfg false true (some "d") (fun _ => true)
            [Event.frame (Frame.bin [1]), Event.authResolved true,
              Event.frame (Frame.bin [2, 3]), Event.loadResolved true,
              Event.frame (Frame.bin [4])]).buffered =
        binData
          (handleConnection defaultCfg false true (some "d") (fun _ => true)
              [Event.frame (Frame.bin [1]), Event.authResolved true,
                Event.frame (Frame.bin [2, 3]), Event.loadResolved true,
                Event.frame (Frame.bin [4])]).preEvents ∧
      handlerFrames
          (handleConnection defaultCfg false true (some "d") (fun _ => true)
              [Event.frame (Frame.bin [1]), Event.authResolved true,
                Event.frame (Frame.bin [2, 3]), Event.loadResolved true,
                Event.frame (Frame.bin [4])]).actions =
        (binData
              (handleConnection defaultCfg false true (some "d")
                  (fun _ => true)
                  [Event.frame (Frame.bin [1]), Event.authResolved true,
                    Event.frame (Frame.bin [2, 3]), Event.loadResolved true,
                    Event.frame (Frame.bin [4])]).preEvents).map
            Frame.bin ++
          framesUntilClose
            (handleConnection defaultCfg false true (some "d") (fun _ => true)
                [Event.frame (Frame.bin [1]), Event.authResolved true,
                  Event.frame (Frame.bin [2, 3]), Event.loadResolved true,
                  Event.frame (Frame.bin [4])]).liveEvents :=
  handleConnection_no_loss_strict_order defaultCfg (some "d") (fun _ => true)
    [Event.frame (Frame.bin [1]), Event.authResolved true,
      Event.frame (Frame.bin [2, 3]), Event.loadResolved true,
      Event.frame (Frame.bin [4])] (by decide)

/-- Claim C4: a connection handed to handleConnection after the server's
close has been called is immediately closed with close code 1000 (NORMAL),
with no buffering performed for it: no message or close listeners are
registered and no room is looked up or created. -/
theorem handleConnection_after_server_close (cfg : ServerCfg)
    (connOpen0 : Bool) (docName : Option String) (decodeOk : List Nat → Bool)
    (events : List Event) :
    (handleConnection cfg true connOpen0 docName decodeOk events).actions =
        [Action.closeConn CloseReason.NORMAL] ∧
      Action.addMessageListener ∉
        (handleConnection cfg true connOpen0 docName decodeOk events).actions ∧
      Action.addCloseListener ∉
        (handleConnection cfg true connOpen0 docName decodeOk events).actions ∧
      Action.extractDocName ∉
        (handleConnection cfg true connOpen0 docName decodeOk events).actions ∧
      (∀ n, Action.roomLookup n ∉
        (handleConnection cfg true connOpen0 docName decodeOk events).actions) := by
  refine ⟨rfl, ?_, ?_, ?_, ?_⟩ <;> simp [handleConnection]

/-- Claim C5: when the authorizationOutcome promise rejects, handleConnection
terminates the connection and reports the error through the logger, and
performs no further admission step: no document-name extraction, no room
lookup or creation, no attachment to a room, and no initial sync. -/
theorem handleConnection_auth_reject (cfg : ServerCfg)
    (docName : Option String) (decodeOk : List Nat → Bool) (events : List Event)
    (h : (bufferUntilReady Phase.auth cfg.maxBufferedBytesBeforeConnect events
        [] true).outcome = some GateOutcome.rejected) :
    (handleConnection cfg false true docName decodeOk events).outcome =
        AdmOutcome.terminated ∧
      (handleConnection cfg false true docName decodeOk events).actions =
        Action.setBinaryType ::
          (bufferUntilReady Phase.auth cfg.maxBufferedBytesBeforeConnect events
              [] true).actions ++
          [Action.logError, Action.terminate] ∧
      Action.terminate ∈
        (handleConnection cfg false true docName decodeOk events).actions ∧
      Action.logError ∈
        (handleConnection cfg false true docName decodeOk events).actions ∧
      Action.extractDocName ∉
        (handleConnection cfg false true docName decodeOk events).actions ∧
      (∀ n, Action.roomLookup n ∉
        (handleConnection cfg false true docName decodeOk events).actions) ∧
      (∀ n, Action.attachRoom n ∉
        (handleConnection cfg false true docName decodeOk events).actions) ∧
      Action.sendInitialSync ∉
        (handleConnection cfg false true docName decodeOk events).actions := by
  have hrun : handleConnection cfg false true docName decodeOk events =
      ⟨Action.setBinaryType ::
          (bufferUntilReady Phase.auth cfg.maxBufferedBytesBeforeConnect events
              [] true).actions ++
          [Action.logError, Action.terminate],
        AdmOutcome.terminated, [], events, []⟩ := by
    simp only [handleConnection, Bool.not_true, Bool.false_eq_true, if_false, h]
  rw [hrun]
  have hmem : ∀ a ∈ Action.setBinaryType ::
      (bufferUntilReady Phase.auth cfg.maxBufferedBytesBeforeConnect events
          [] true).actions ++
      [Action.logError, Action.terminate],
      a = Action.setBinaryType ∨ a = Action.addMessageListener ∨
        a = Action.addCloseListener ∨ a = Action.removeCloseListener ∨
        a = Action.removeMessageListener ∨ a = Action.logWarn ∨
        a = Action.terminate ∨ a = Action.logError := by
    intro a ha
    simp only [List.cons_append, List.mem_cons, List.mem_append,
      List.mem_singleton, or_assoc] at ha
    rcases ha with ha | ha | ha | ha | ha
    · exact Or.inl ha
    · rcases bufferUntilReady_actions_sub Phase.auth
          cfg.maxBufferedBytesBeforeConnect events [] true a ha with
        h5 | h5 | h5 | h5 | h5 | h5
      · exact Or.inr (Or.inl h5)
      · exact Or.inr (Or.inr (Or.inl h5))
      · exact Or.inr (Or.inr (Or.inr (Or.inl h5)))
      · exact Or.inr (Or.inr (Or.inr (Or.inr (Or.inl h5))))
      · exact Or.inr (Or.inr (Or.inr (Or.inr (Or.inr (Or.inl h5)))))
      · exact Or.inr (Or.inr (Or.inr (Or.inr (Or.inr (Or.inr (Or.inl h5))))))
    · exact Or.inr (Or.inr (Or.inr (Or.inr (Or.inr (Or.inr (Or.inr ha))))))
    · exact Or.inr (Or.inr (Or.inr (Or.inr (Or.inr (Or.inr (Or.inl ha))))))
    · simp at ha
  refine ⟨rfl, rfl, by simp, by simp, ?_, ?_, ?_, ?_⟩
  · intro hmem2
    rcases hmem _ hmem2 with h5 | h5 | h5 | h5 | h5 | h5 | h5 | h5 <;>
      simp at h5
  · intro n hmem2
    rcases hmem _ hmem2 with h5 | h5 | h5 | h5 | h5 | h5 | h5 | h5 <;>
      simp at h5
  · intro n hmem2
    rcases hmem _ hmem2 with h5 | h5 | h5 | h5 | h5 | h5 | h5 | h5 <;>
      simp at h5
  · intro hmem2
    rcases hmem _ hmem2 with h5 | h5 | h5 | h5 | h5 | h5 | h5 | h5 <;>
      simp at h5

theorem handleConnection_auth_reject_witness :
    (handleConnection defaultCfg false true (some "d") (fun _ => true)
          [Event.authRejected]).outcome = AdmOutcome.terminated ∧
      (handleConnection defaultCfg false true (some "d") (fun _ => true)
          [Event.authRejected]).actions =
        Action.setBinaryType ::
          (bufferUntilReady Phase.auth
              defaultCfg.maxBufferedBytesBeforeConnect [Event.authRejected]
              [] true).actions ++
          [Action.logError, Action.terminate] ∧
      Action.terminate ∈
        (handleConnection defaultCfg false true (some "d") (fun _ => true)
            [Event.authRejected]).actions ∧
      Action.logError ∈
        (handleConnection defaultCfg false true (some "d") (fun _ => true)
            [Event.authRejected]).actions ∧
      Action.extractDocName ∉
        (handleConnection defaultCfg false true (some "d") (fun _ => true)
            [Event.authRejected]).actions ∧
      (∀ n, Action.roomLookup n ∉
        (handleConnection defaultCfg false true (some "d") (fun _ => true)
            [Event.authRejected]).actions) ∧
      (∀ n, Action.attachRoom n ∉
        (handleConnection defaultCfg false true (some "d") (fun _ => true)
            [Event.authRejected]).actions) ∧
      Action.sendInitialSync ∉
        (handleConnection defaultCfg false true (some "d") (fun _ => true)
            [Event.authRejected]).actions :=
  handleConnection_auth_reject defaultCfg (some "d") (fun _ => true)
    [Event.authRejected] (by decide)

/-- Claim C6: when the connection's close event fires before the awaited
gate promise resolves, bufferUntilReady resolves to false (do not continue)
and the accumulated buffered frames are discarded. -/
theorem bufferUntilReady_close_discards (phase : Phase) (maxSize : Nat)
    (events : List Event) (msgs : List (List Nat)) (conn : Bool)
    (h : closeFirst phase events = true) :
    (bufferUntilReady phase maxSize events msgs conn).outcome =
        some (GateOutcome.resolved false) ∧
      (bufferUntilReady phase maxSize events msgs conn).messages = [] := by
  have := bufferLoop_closeFirst phase maxSize events msgs
    ((msgs.map List.length).sum) conn h
  exact ⟨by rw [bufferUntilReady_outcome]; exact this.1,
    by rw [bufferUntilReady_messages]; exact this.2⟩

theorem bufferUntilReady_close_discards_witness :
    (bufferUntilReady Phase.auth 10
          [Event.frame (Frame.bin [7]), Event.closeEvt,
            Event.authResolved true] [[1, 2]] true).outcome =
        some (GateOutcome.resolved false) ∧
      (bufferUntilReady Phase.auth 10
          [Event.frame (Frame.bin [7]), Event.closeEvt,
            Event.authResolved true] [[1, 2]] true).messages = [] :=
  bufferUntilReady_close_discards Phase.auth 10
    [Event.frame (Frame.bin [7]), Event.closeEvt, Event.authResolved true]
    [[1, 2]] true (by decide)

/-- Claim C7 (code bug record): without explicit buffer options,
createYjsServer sets maxBufferedBytesBeforeConnect to `1024 * 5` = 5120
bytes although its own comment and the README document the default as 5MB;
maxBufferedBytes does default to 100MB. -/
theorem default_buffer_ceilings :
    defaultMaxBufferedBytesBeforeConnect = 5120 ∧
      defaultMaxBufferedBytes = 104857600 ∧
      defaultMaxBufferedBytesBeforeConnect ≠ 5 * 1024 * 1024 ∧
      defaultMaxBufferedBytes = 100 * 1024 * 1024 := by
  refine ⟨rfl, rfl, by decide, rfl⟩

/-- JavaScript String.split with a one-character separator, on strings
modelled as character lists. -/
def jsSplit (sep : Char) : List Char → List (List Char)
  | [] => [[]]
  | c :: rest =>
    if c = sep then [] :: jsSplit sep rest
    else
      match jsSplit sep rest with
      | [] => [[c]]
      | h :: t => (c :: h) :: t

/-- defaultDocNameFromRequest: `req.url?.slice(1).split(sep)[0]` with the
separator character the source uses, on the request's optional url. -/
def defaultDocNameFromRequest (url : Option (List Char)) : Option (List Char) :=
  url.map fun u => (jsSplit '?' (u.drop 1)).headD []

theorem jsSplit_ne_nil (sep : Char) : ∀ (l : List Char), jsSplit sep l ≠ [] := by
  intro l
  induction l with
  | nil => simp [jsSplit]
  | cons c rest ih =>
    by_cases hc : c = sep
    · simp [jsSplit, hc]
    · simp only [jsSplit, hc, if_false]
      rcases hr : jsSplit sep rest with _ | ⟨h, t⟩
      · simp
      · simp

theorem jsSplit_no_sep (sep : Char) :
    ∀ (l : List Char), (∀ c ∈ l, c ≠ sep) → jsSplit sep l = [l] := by
  intro l
  induction l with
  | nil => intro _; rfl
  | cons c rest ih =>
    intro h
    have hc : ¬c = sep := h c (by simp)
    have hr := ih fun x hx => h x (by simp [hx])
    simp [jsSplit, hc, hr]

theorem jsSplit_head_until_sep (sep : Char) :
    ∀ (p q : List Char), (∀ c ∈ p, c ≠ sep) →
      jsSplit sep (p ++ sep :: q) = p :: jsSplit sep q := by
  intro p q
  induction p with
  | nil => intro _; simp [jsSplit]
  | cons c rest ih =>
    intro h
    have hc : ¬c = sep := h c (by simp)
    have hr := ih fun x hx => h x (by simp [hx])
    simp [jsSplit, hc, hr]

/-- Claim C8 counterexample: for the request url "/a/b" (a path with two
segments) the default extraction returns "a/b", the whole remaining path,
not the first slash-delimited segment "a". -/
theorem defaultDocNameFromRequest_counterexample :
    defaultDocNameFromRequest (some ['/', 'a', '/', 'b']) =
        some ['a', '/', 'b'] ∧
      defaultDocNameFromRequest (some ['/', 'a', '/', 'b']) ≠ some ['a'] := by
  constructor
  · rfl
  · decide

/-- Claim C8 (amended): the default extraction drops the leading character
of the url and truncates at the first question mark, returning the whole
remaining path rather than only the first slash-delimited segment; it
returns an absent value when the url is missing. -/
theorem defaultDocNameFromRequest_amended (path q : List Char)
    (h : ∀ c ∈ path, c ≠ '?') :
    defaultDocNameFromRequest (some ('/' :: path ++ '?' :: q)) = some path ∧
      defaultDocNameFromRequest (some ('/' :: path)) = some path ∧
      defaultDocNameFromRequest none = none := by
  refine ⟨?_, ?_, rfl⟩
  · simp [defaultDocNameFromRequest, jsSplit_head_until_sep '?' path q h]
  · simp [defaultDocNameFromRequest, jsSplit_no_sep '?' path h]

theorem defaultDocNameFromRequest_amended_witness :
    defaultDocNameFromRequest
          (some ('/' :: ['a', '/', 'b'] ++ '?' :: ['x'])) =
        some ['a', '/', 'b'] ∧
      defaultDocNameFromRequest (some ('/' :: ['a', '/', 'b'])) =
        some ['a', '/', 'b'] ∧
      defaultDocNameFromRequest none = none :=
  defaultDocNameFromRequest_amended ['a', '/', 'b'] ['x'] (by decide)

/-- How the underlying socket behaves when the send helper calls
`conn.send`: the call succeeds, the call throws synchronously, or the call
reports an error through its callback. -/
inductive SendBehavior
  | ok
  | throws
  | cbError
  deriving DecidableEq

/-- The body of the send helper before its catch block, with exceptions
modelled explicitly: the invariant on readyState throws when the
connection is neither CONNECTING nor OPEN, and `conn.send` may throw or
report a callback error that closes the connection with INTERNAL_ERROR. -/
def sendBody (readyState : Nat) (beh : SendBehavior) :
    Except Unit (List Action) :=
  if readyState = OPEN ∨ readyState = CONNECTING then
    match beh with
    | .ok => .ok [Action.sendData]
    | .throws => .error ()
    | .cbError =>
      .ok [Action.sendData, Action.closeConn CloseReason.INTERNAL_ERROR]
  else .error ()

/-- The send helper of socket-ops.ts: any exception from the body is
caught and converted into a close with INTERNAL_ERROR. -/
def send (readyState : Nat) (beh : SendBehavior) :
    Except Unit (List Action) :=
  match sendBody readyState beh with
  | .error _ => .ok [Action.closeConn CloseReason.INTERNAL_ERROR]
  | .ok acts => .ok acts

/-- Claim C10: the send helper never propagates an exception: it always
returns normally, and when the connection is neither CONNECTING nor OPEN,
or the underlying socket send throws, or the callback reports an error,
it closes the connection with close code 1011 (INTERNAL_ERROR). -/
theorem send_never_throws (readyState : Nat) (beh : SendBehavior) :
    (∃ acts, send readyState beh = .ok acts) ∧
      (¬(readyState = OPEN ∨ readyState = CONNECTING) →
        send readyState beh = .ok [Action.closeConn CloseReason.INTERNAL_ERROR]) ∧
      (beh = .throws →
        send readyState beh = .ok [Action.closeConn CloseReason.INTERNAL_ERROR]) ∧
      (beh = .cbError → (readyState = OPEN ∨ readyState = CONNECTING) →
        send readyState beh =
          .ok [Action.sendData, Action.closeConn CloseReason.INTERNAL_ERROR]) ∧
      (beh = .ok → (readyState = OPEN ∨ readyState = CONNECTING) →
        send readyState beh = .ok [Action.sendData]) := by
  refine ⟨?_, ?_, ?_, ?_, ?_⟩
  · by_cases hrs : readyState = OPEN ∨ readyState = CONNECTING
    · cases beh
      · exact ⟨[Action.sendData], by simp [send, sendBody, hrs]⟩
      · exact ⟨[Action.closeConn CloseReason.INTERNAL_ERROR],
          by simp [send, sendBody, hrs]⟩
      · exact ⟨[Action.sendData, Action.closeConn CloseReason.INTERNAL_ERROR],
          by simp [send, sendBody, hrs]⟩
    · exact ⟨[Action.closeConn CloseReason.INTERNAL_ERROR],
        by cases beh <;> simp [send, sendBody, hrs]⟩
  · intro hn
    cases beh <;> simp [send, sendBody, hn]
  · intro hb
    subst hb
    by_cases hrs : readyState = OPEN ∨ readyState = CONNECTING <;>
      simp [send, sendBody, hrs]
  · intro hb hs
    subst hb
    simp [send, sendBody, hs]
  · intro hb hs
    subst hb
    simp [send, sendBody, hs]

theorem send_never_throws_witness :
    (∃ acts, send 3 SendBehavior.ok = .ok acts) ∧
      (¬(3 = OPEN ∨ 3 = CONNECTING) →
        send 3 SendBehavior.ok =
          .ok [Action.closeConn CloseReason.INTERNAL_ERROR]) ∧
      (SendBehavior.ok = .throws →
        send 3 SendBehavior.ok =
          .ok [Action.closeConn CloseReason.INTERNAL_ERROR]) ∧
      (SendBehavior.ok = .cbError → (3 = OPEN ∨ 3 = CONNECTING) →
        send 3 SendBehavior.ok =
          .ok [Action.sendData, Action.closeConn CloseReason.INTERNAL_ERROR]) ∧
      (SendBehavior.ok = .ok → (3 = OPEN ∨ 3 = CONNECTING) →
        send 3 SendBehavior.ok = .ok [Action.sendData]) :=
  send_never_throws 3 SendBehavior.ok

/-- The optional DocStorage collaborator: whether a storage object is
configured, and which of its optional hooks are present (loadDoc is
mandatory on a configured storage). -/
structure StorageCfg where
  present : Bool
  hasStoreDoc : Bool
  hasOnUpdate : Bool
  deriving DecidableEq

/-- A Room: its identity (to tell instances apart), its immutable name,
the attached connections each mapped to the presence-client-ids it
controls, the ids present in the awareness state, and the dirty flag. -/
structure RoomM where
  id : Nat
  name : String
  conns : List (Nat × List Nat)
  awareness : List Nat
  isDirty : Bool
  deriving DecidableEq

/-- Effects of the room and registry code that the claims observe. -/
inductive SrvEffect
  | createRoom (id : Nat) (name : String)
  | loadDocCall (name : String)
  | broadcast (id : Nat)
  | onUpdateCall (name : String)
  | awarenessRemoved (id : Nat) (ids : List Nat)
  | awarenessDestroyed (id : Nat)
  | unsubscribed (id : Nat)
  | storeDocCall (id : Nat) (name : String)
  | releaseDoc (id : Nat)
  deriving DecidableEq

/-- Map.get on the conns map. -/
def findConn : List (Nat × List Nat) → Nat → Option (List Nat)
  | [], _ => none
  | p :: rest, c => if p.1 = c then some p.2 else findConn rest c

/-- Room.addConnection: `this.conns.set(conn, new Set())`. -/
def RoomM.addConnection (r : RoomM) (c : Nat) : RoomM :=
  if (findConn r.conns c).isSome then
    { r with conns := r.conns.map fun p => if p.1 = c then (c, []) else p }
  else
    { r with conns := r.conns ++ [(c, [])] }

/-- Room.removeConnection: when the connection is tracked, its controlled
ids are removed from the awareness state (removeAwarenessStates) and the
connection is deleted from the map; otherwise nothing happens. -/
def RoomM.removeConnection (r : RoomM) (c : Nat) : RoomM × List SrvEffect :=
  match findConn r.conns c with
  | none => (r, [])
  | some ids =>
    ({ r with
        awareness := r.awareness.filter fun a => !ids.contains a,
        conns := r.conns.filter fun p => p.1 ≠ c },
      [SrvEffect.awarenessRemoved r.id ids])

/-- The handleDocUpdate callback of the Room: broadcasts the update to the
attached connections, forwards it to the storage's optional onUpdate hook,
and marks the Room dirty. -/
def RoomM.handleDocUpdate (cfg : StorageCfg) (r : RoomM) :
    RoomM × List SrvEffect :=
  ({ r with isDirty := true },
    SrvEffect.broadcast r.id ::
      (if cfg.present && cfg.hasOnUpdate then [SrvEffect.onUpdateCall r.name]
        else []))

/-- Room.destroy: unsubscribes from document updates, destroys the
awareness state, and then, only when the Room is dirty and a storeDoc hook
is configured, calls storeDoc before releasing the document handle;
otherwise it releases the document handle immediately. -/
def RoomM.destroy (cfg : StorageCfg) (r : RoomM) : List SrvEffect :=
  SrvEffect.unsubscribed r.id :: SrvEffect.awarenessDestroyed r.id ::
    (if r.isDirty && (cfg.present && cfg.hasStoreDoc) then
      [SrvEffect.storeDocCall r.id r.name, SrvEffect.releaseDoc r.id]
    else [SrvEffect.releaseDoc r.id])

/-- The server's registry state: the rooms map and the counter supplying
fresh room identities. -/
structure Srv where
  rooms : List (String × RoomM)
  nextId : Nat
  deriving DecidableEq

/-- Map.get on the registry. -/
def findVal : List (String × RoomM) → String → Option RoomM
  | [], _ => none
  | p :: rest, k => if p.1 = k then some p.2 else findVal rest k

/-- Map.set on the registry for a key that may be present. -/
def setVal (l : List (String × RoomM)) (k : String) (v : RoomM) :
    List (String × RoomM) :=
  l.map fun p => if p.1 = k then (k, v) else p

/-- getOrCreateRoom: returns the existing Room for the name when present;
otherwise makeRoom builds a fresh Room (with a fresh document handle and,
when storage is configured, one invocation of its loadDoc hook) and the
Room is inserted into the registry. -/
def getOrCreateRoom (cfg : StorageCfg) (s : Srv) (name : String) :
    Srv × RoomM × List SrvEffect :=
  match findVal s.rooms name with
  | some r => (s, r, [])
  | none =>
    let r : RoomM := ⟨s.nextId, name, [], [], false⟩
    (⟨s.rooms ++ [(name, r)], s.nextId + 1⟩, r,
      SrvEffect.createRoom s.nextId name ::
        (if cfg.present then [SrvEffect.loadDocCall name] else []))

/-- Observable server-level events: a connection admitted into a room name,
a connection's close event, and a document mutation in a room. -/
inductive SrvEvent
  | connect (c : Nat) (name : String)
  | disconnect (c : Nat)
  | docUpdate (name : String)
  deriving DecidableEq

/-- The room holding a given connection, with its name. -/
def connRoom (l : List (String × RoomM)) (c : Nat) :
    Option (String × RoomM) :=
  l.find? fun p => (findConn p.2.conns c).isSome

/-- handleClose: removes the connection from its room and, when the room
has no connections left, deletes the room from the registry and destroys
it. -/
def handleClose (cfg : StorageCfg) (s : Srv) (c : Nat) :
    Srv × List SrvEffect :=
  match connRoom s.rooms c with
  | none => (s, [])
  | some (name, r) =>
    let rr := r.removeConnection c
    if rr.1.conns.isEmpty then
      (⟨s.rooms.filter fun p => p.1 ≠ name, s.nextId⟩,
        rr.2 ++ RoomM.destroy cfg rr.1)
    else
      (⟨setVal s.rooms name rr.1, s.nextId⟩, rr.2)

/-- One server step. -/
def srvStep (cfg : StorageCfg) (s : Srv) : SrvEvent → Srv × List SrvEffect
  | .connect c name =>
    let gcr := getOrCreateRoom cfg s name
    (⟨setVal gcr.1.rooms name (gcr.2.1.addConnection c), gcr.1.nextId⟩,
      gcr.2.2)
  | .disconnect c => handleClose cfg s c
  | .docUpdate name =>
    match findVal s.rooms name with
    | none => (s, [])
    | some r =>
      let ru := r.handleDocUpdate cfg
      (⟨setVal s.rooms name ru.1, s.nextId⟩, ru.2)

/-- Run of the server over a list of events, accumulating the effect log. -/
def srvRun (cfg : StorageCfg) : List SrvEvent → Srv → Srv × List SrvEffect
  | [], s => (s, [])
  | e :: rest, s =>
    let st := srvStep cfg s e
    let r := srvRun cfg rest st.1
    (r.1, st.2 ++ r.2)

/-- The empty server state. -/
def srvInit : Srv := ⟨[], 0⟩

theorem keys_setVal (l : List (String × RoomM)) (k : String) (v : RoomM) :
    (setVal l k v).map Prod.fst = l.map Prod.fst := by
  induction l with
  | nil => rfl
  | cons p rest ih =>
    by_cases hp : p.1 = k
    · simp [setVal, hp] at ih ⊢
      exact ih
    · simp [setVal, hp] at ih ⊢
      exact ih

theorem findVal_eq_none (l : List (String × RoomM)) (k : String)
    (h : findVal l k = none) : k ∉ l.map Prod.fst := by
  induction l with
  | nil => simp
  | cons p rest ih =>
    by_cases hp : p.1 = k
    · simp [findVal, hp] at h
    · simp only [findVal, hp, if_false] at h
      simp only [List.map_cons, List.mem_cons]
      rintro (hk | hk)
      · exact hp hk.symm
      · exact ih h hk

theorem findVal_setVal_some (l : List (String × RoomM)) (k : String)
    (v : RoomM) (r : RoomM) (h : findVal l k = some r) :
    findVal (setVal l k v) k = some v := by
  induction l with
  | nil => simp [findVal] at h
  | cons p rest ih =>
    by_cases hp : p.1 = k
    · simp [setVal, findVal, hp]
    · simp only [findVal, hp, if_false] at h
      simp only [setVal, List.map_cons, if_neg hp]
      simpa [findVal, hp] using ih h

theorem findVal_mem (l : List (String × RoomM)) (k : String) (r : RoomM)
    (h : findVal l k = some r) : (k, r) ∈ l := by
  induction l with
  | nil => simp [findVal] at h
  | cons p rest ih =>
    by_cases hp : p.1 = k
    · simp only [findVal, hp, if_pos, Option.some_inj] at h
      subst h
      rw [← hp, Prod.mk.eta]
      exact List.mem_cons_self _ _
    · simp only [findVal, hp, if_false] at h
      exact List.mem_cons_of_mem _ (ih h)

theorem findVal_unique (l : List (String × RoomM)) (k : String) (r : RoomM)
    (hn : (l.map Prod.fst).Nodup) (h : findVal l k = some r) :
    ∀ p ∈ l, p.1 = k → p.2 = r := by
  induction l with
  | nil => simp
  | cons q rest ih =>
    intro p hp hpk
    simp only [List.map_cons, List.nodup_cons] at hn
    by_cases hq : q.1 = k
    · simp only [findVal, hq, if_pos, Option.some_inj] at h
      subst h
      rcases List.mem_cons.mp hp with hp2 | hp2
      · rw [hp2]
      · have hmem : q.1 ∈ List.map Prod.fst rest := by
          rw [hq, ← hpk]
          exact List.mem_map_of_mem Prod.fst hp2
        exact absurd hmem hn.1
    · simp only [findVal, hq, if_false] at h
      rcases List.mem_cons.mp hp with hp2 | hp2
      · exact absurd (hp2 ▸ hpk) hq
      · exact ih hn.2 h p hp2 hpk

theorem roomIds_setVal (l : List (String × RoomM)) (k : String) (v : RoomM)
    (h : ∀ p ∈ l, p.1 = k → p.2.id = v.id) :
    (setVal l k v).map (fun p => p.2.id) = l.map fun p => p.2.id := by
  induction l with
  | nil => rfl
  | cons p rest ih =>
    have hrest := ih fun q hq => h q (List.mem_cons_of_mem _ hq)
    by_cases hp : p.1 = k
    · simp only [setVal, List.map_cons, if_pos hp] at hrest ⊢
      rw [hrest, h p (by simp) hp]
    · simp only [setVal, List.map_cons, if_neg hp] at hrest ⊢
      rw [hrest]

theorem findConn_filter_ne (l : List (Nat × List Nat)) (c : Nat) :
    findConn (l.filter fun p => p.1 ≠ c) c = none := by
  induction l with
  | nil => rfl
  | cons p rest ih =>
    by_cases hp : p.1 = c
    · simpa [List.filter_cons, hp] using ih
    · simpa [List.filter_cons, hp, findConn] using ih

theorem srvStep_keys_nodup (cfg : StorageCfg) (s : Srv) (e : SrvEvent)
    (h : (s.rooms.map Prod.fst).Nodup) :
    ((srvStep cfg s e).1.rooms.map Prod.fst).Nodup := by
  cases e with
  | connect c name =>
    rcases hf : findVal s.rooms name with _ | r
    · simp only [srvStep, getOrCreateRoom, hf, keys_setVal, List.map_append]
      simp only [List.map_cons, List.map_nil]
      rw [List.nodup_append]
      refine ⟨h, by simp, fun a ha hb => ?_⟩
      simp only [List.mem_singleton] at hb
      exact findVal_eq_none _ _ hf (hb ▸ ha)
    · simpa only [srvStep, getOrCreateRoom, hf, keys_setVal] using h
  | disconnect c =>
    rcases hf : connRoom s.rooms c with _ | p
    · simpa [srvStep, handleClose, hf] using h
    · rcases p with ⟨name, r⟩
      by_cases he : (r.removeConnection c).1.conns.isEmpty
      · simp only [srvStep, handleClose, hf, he, if_pos]
        exact h.sublist ((List.filter_sublist _).map Prod.fst)
      · simpa only [srvStep, handleClose, hf, he, Bool.false_eq_true,
          if_false, keys_setVal] using h
  | docUpdate name =>
    rcases hf : findVal s.rooms name with _ | r
    · simpa [srvStep, hf] using h
    · simpa only [srvStep, hf, keys_setVal] using h

theorem srvRun_keys_nodup (cfg : StorageCfg) :
    ∀ (evs : List SrvEvent) (s : Srv), (s.rooms.map Prod.fst).Nodup →
      ((srvRun cfg evs s).1.rooms.map Prod.fst).Nodup := by
  intro evs
  induction evs with
  | nil => intro s h; simpa [srvRun] using h
  | cons e rest ih =>
    intro s h
    simpa [srvRun] using ih _ (srvStep_keys_nodup cfg s e h)

/-- Recognizes a createRoom effect for the given name. -/
def isCreateFor (name : String) : SrvEffect → Bool
  | .createRoom _ n => n = name
  | _ => false

/-- Recognizes a loadDoc invocation for the given name. -/
def isLoadFor (name : String) : SrvEffect → Bool
  | .loadDocCall n => n = name
  | _ => false

theorem srvRun_connects_existing (cfg : StorageCfg) (name : String) :
    ∀ (cs : List Nat) (s : Srv), (findVal s.rooms name).isSome →
      (srvRun cfg (cs.map fun c => SrvEvent.connect c name) s).2 = [] := by
  intro cs
  induction cs with
  | nil => intro s _; simp [srvRun]
  | cons c rest ih =>
    intro s hs
    rcases ho : findVal s.rooms name with _ | r
    · rw [ho] at hs; simp at hs
    simp only [List.map_cons, srvRun, srvStep, getOrCreateRoom, ho]
    rw [ih _ (by rw [findVal_setVal_some s.rooms name _ r ho]; rfl)]
    rfl

/-- Claim C2: a server's registry maps each name to at most one Room (its
key list stays duplicate-free over any run), and admitting any number of
connections for the same previously-unseen document name creates exactly
one Room instance and, when storage is configured, causes exactly one
loadDoc invocation for that name. -/
theorem registry_at_most_one_room (cfg : StorageCfg) (evs : List SrvEvent)
    (cs : List Nat) (name : String) (hcs : cs ≠ []) :
    ((srvRun cfg evs srvInit).1.rooms.map Prod.fst).Nodup ∧
      ((srvRun cfg (cs.map fun c => SrvEvent.connect c name) srvInit).2.countP
          (isCreateFor name) = 1) ∧
      (cfg.present = true →
        (srvRun cfg (cs.map fun c => SrvEvent.connect c name) srvInit).2.countP
          (isLoadFor name) = 1) := by
  rcases cs with _ | ⟨c, rest⟩
  · exact absurd rfl hcs
  have hlog : (srvRun cfg ((c :: rest).map fun c => SrvEvent.connect c name)
      srvInit).2 =
      SrvEffect.createRoom 0 name ::
        (if cfg.present then [SrvEffect.loadDocCall name] else []) := by
    simp only [List.map_cons, srvRun, srvStep, getOrCreateRoom, srvInit,
      findVal]
    rw [srvRun_connects_existing cfg name rest _ (by
      simp only [List.nil_append]
      rw [findVal_setVal_some [(name, (⟨0, name, [], [], false⟩ : RoomM))]
        name _ ⟨0, name, [], [], false⟩ (by simp [findVal])]
      rfl)]
    simp
  refine ⟨srvRun_keys_nodup cfg evs srvInit (by simp [srvInit]), ?_, ?_⟩
  · rw [hlog]
    by_cases hp : cfg.present <;>
      simp [hp, List.countP_cons, isCreateFor, isLoadFor]
  · intro hp
    rw [hlog]
    simp [hp, List.countP_cons, isCreateFor, isLoadFor]

theorem registry_at_most_one_room_witness :
    ((srvRun ⟨true, true, true⟩
          [SrvEvent.connect 1 "doc", SrvEvent.docUpdate "doc",
            SrvEvent.disconnect 1] srvInit).1.rooms.map Prod.fst).Nodup ∧
      ((srvRun ⟨true, true, true⟩
          ([1, 2, 3].map fun c => SrvEvent.connect c "doc") srvInit).2.countP
          (isCreateFor "doc") = 1) ∧
      ((⟨true, true, true⟩ : StorageCfg).present = true →
        (srvRun ⟨true, true, true⟩
          ([1, 2, 3].map fun c => SrvEvent.connect c "doc") srvInit).2.countP
          (isLoadFor "doc") = 1) :=
  registry_at_most_one_room ⟨true, true, true⟩
    [SrvEvent.connect 1 "doc", SrvEvent.docUpdate "doc",
      SrvEvent.disconnect 1] [1, 2, 3] "doc" (by simp)

/-- Claim C9: removing a connection from a Room removes exactly the
presence-client-ids that connection controlled from the Room's awareness
state, deletes the connection from the Room, and in handleClose this
removal happens strictly before the Room's connection count is observed
as zero: the destroy step, when it runs, is applied to the state from
which the connection and its controlled ids were already removed. -/
theorem removeConnection_presence_retraction (r : RoomM) (c : Nat)
    (ids : List Nat) (h : findConn r.conns c = some ids)
    (cfg : StorageCfg) (s : Srv) (name : String) (rm : RoomM)
    (h2 : connRoom s.rooms c = some (name, rm)) :
    (r.removeConnection c).1.awareness =
        r.awareness.filter (fun a => !ids.contains a) ∧
      findConn (r.removeConnection c).1.conns c = none ∧
      (r.removeConnection c).2 = [SrvEffect.awarenessRemoved r.id ids] ∧
      (srvStep cfg s (SrvEvent.disconnect c)).2 =
        (rm.removeConnection c).2 ++
          (if (rm.removeConnection c).1.conns.isEmpty then
            RoomM.destroy cfg (rm.removeConnection c).1
          else []) := by
  refine ⟨by simp [RoomM.removeConnection, h], ?_,
    by simp [RoomM.removeConnection, h], ?_⟩
  · simp only [RoomM.removeConnection, h]
    exact findConn_filter_ne r.conns c
  · simp only [srvStep, handleClose, h2]
    by_cases he : (rm.removeConnection c).1.conns.isEmpty
    · simp [he]
    · simp [he]

theorem removeConnection_presence_retraction_witness :
    ((⟨5, "d", [(1, [10, 11]), (2, [])], [10, 11, 12], false⟩ :
          RoomM).removeConnection 1).1.awareness =
        [10, 11, 12].filter (fun a => !([10, 11].contains a)) ∧
      findConn ((⟨5, "d", [(1, [10, 11]), (2, [])], [10, 11, 12], false⟩ :
          RoomM).removeConnection 1).1.conns 1 = none ∧
      ((⟨5, "d", [(1, [10, 11]), (2, [])], [10, 11, 12], false⟩ :
          RoomM).removeConnection 1).2 =
        [SrvEffect.awarenessRemoved 5 [10, 11]] ∧
      (srvStep ⟨true, true, true⟩
          ⟨[("d", ⟨5, "d", [(1, [10, 11]), (2, [])], [10, 11, 12], false⟩)], 6⟩
          (SrvEvent.disconnect 1)).2 =
        ((⟨5, "d", [(1, [10, 11]), (2, [])], [10, 11, 12], false⟩ :
            RoomM).removeConnection 1).2 ++
          (if ((⟨5, "d", [(1, [10, 11]), (2, [])], [10, 11, 12], false⟩ :
              RoomM).removeConnection 1).1.conns.isEmpty then
            RoomM.destroy ⟨true, true, true⟩
              ((⟨5, "d", [(1, [10, 11]), (2, [])], [10, 11, 12], false⟩ :
                  RoomM).removeConnection 1).1
          else []) :=
  removeConnection_presence_retraction
    ⟨5, "d", [(1, [10, 11]), (2, [])], [10, 11, 12], false⟩ 1 [10, 11]
    (by decide) ⟨true, true, true⟩
    ⟨[("d", ⟨5, "d", [(1, [10, 11]), (2, [])], [10, 11, 12], false⟩)], 6⟩
    "d" ⟨5, "d", [(1, [10, 11]), (2, [])], [10, 11, 12], false⟩ (by decide)

/-- Recognizes any storeDoc invocation. -/
def isStore : SrvEffect → Bool
  | .storeDocCall _ _ => true
  | _ => false

/-- Recognizes a storeDoc invocation of the Room instance with the given
identity. -/
def isStoreFor (id : Nat) : SrvEffect → Bool
  | .storeDocCall i _ => i = id
  | _ => false

/-- Number of storeDoc invocations of a given Room instance in a log. -/
def storeCount (id : Nat) (log : List SrvEffect) : Nat :=
  log.countP (isStoreFor id)

theorem storeCount_append (id : Nat) (l1 l2 : List SrvEffect) :
    storeCount id (l1 ++ l2) = storeCount id l1 + storeCount id l2 :=
  List.countP_append _ _ _

theorem storeCount_destroy_le (cfg : StorageCfg) (r : RoomM) (id : Nat) :
    storeCount id (RoomM.destroy cfg r) ≤ 1 := by
  by_cases hd : (r.isDirty && (cfg.present && cfg.hasStoreDoc)) = true
  · by_cases hi : r.id = id <;>
      simp [RoomM.destroy, hd, storeCount, List.countP_cons, isStoreFor, hi]
  · simp [RoomM.destroy, hd, storeCount, List.countP_cons, isStoreFor]

theorem storeCount_destroy_pos (cfg : StorageCfg) (r : RoomM) (id : Nat)
    (h : 0 < storeCount id (RoomM.destroy cfg r)) :
    id = r.id ∧ (r.isDirty && (cfg.present && cfg.hasStoreDoc)) = true := by
  by_cases hd : (r.isDirty && (cfg.present && cfg.hasStoreDoc)) = true
  · by_cases hi : r.id = id
    · exact ⟨hi.symm, hd⟩
    · simp [RoomM.destroy, hd, storeCount, List.countP_cons, isStoreFor,
        hi] at h
  · simp [RoomM.destroy, hd, storeCount, List.countP_cons, isStoreFor] at h

theorem mem_setVal (l : List (String × RoomM)) (k : String) (v : RoomM)
    (p : String × RoomM) (h : p ∈ setVal l k v) : p = (k, v) ∨ p ∈ l := by
  rcases List.mem_map.mp h with ⟨q, hq, hpq⟩
  by_cases hk : q.1 = k
  · left
    rw [← hpq]
    simp [hk]
  · right
    rw [← hpq]
    simpa [hk] using hq

theorem findVal_of_mem_nodup (l : List (String × RoomM)) (k : String)
    (r : RoomM) (hn : (l.map Prod.fst).Nodup) (hm : (k, r) ∈ l) :
    findVal l k = some r := by
  induction l with
  | nil => simp at hm
  | cons p rest ih =>
    simp only [List.map_cons, List.nodup_cons] at hn
    rcases List.mem_cons.mp hm with hm2 | hm2
    · rw [← hm2]
      simp [findVal]
    · by_cases hp : p.1 = k
      · exact absurd (hp ▸ List.mem_map_of_mem Prod.fst hm2) hn.1
      · simp only [findVal, hp, if_false]
        exact ih hn.2 hm2

/-- The invariant tying the registry state to the effect log: registry
keys are unique, room identities are bounded by the counter and unique,
and every Room instance that ever received a storeDoc call has left the
registry for good, having been stored exactly once. -/
def SrvInv (s : Srv) (log : List SrvEffect) : Prop :=
  (s.rooms.map Prod.fst).Nodup ∧
    (∀ p ∈ s.rooms, p.2.id < s.nextId) ∧
    (s.rooms.map fun p => p.2.id).Nodup ∧
    (∀ id, 0 < storeCount id log →
      id < s.nextId ∧ ∀ p ∈ s.rooms, p.2.id ≠ id) ∧
    (∀ id, storeCount id log ≤ 1)

theorem addConnection_id (r : RoomM) (c : Nat) :
    (r.addConnection c).id = r.id := by
  by_cases hc : (findConn r.conns c).isSome <;> simp [RoomM.addConnection, hc]

theorem removeConnection_id (r : RoomM) (c : Nat) :
    (r.removeConnection c).1.id = r.id := by
  rcases hc : findConn r.conns c with _ | ids <;>
    simp [RoomM.removeConnection, hc]

theorem removeConnection_isDirty (r : RoomM) (c : Nat) :
    (r.removeConnection c).1.isDirty = r.isDirty := by
  rcases hc : findConn r.conns c with _ | ids <;>
    simp [RoomM.removeConnection, hc]

theorem storeCount_removeConnection (r : RoomM) (c : Nat) (id : Nat) :
    storeCount id (r.removeConnection c).2 = 0 := by
  rcases hc : findConn r.conns c with _ | ids <;>
    simp [RoomM.removeConnection, hc, storeCount, List.countP_cons, isStoreFor]

theorem srvStep_inv (cfg : StorageCfg) (s : Srv) (e : SrvEvent)
    (log : List SrvEffect) (h : SrvInv s log) :
    SrvInv (srvStep cfg s e).1 (log ++ (srvStep cfg s e).2) := by
  obtain ⟨h1, h2, h3, h4, h5⟩ := h
  have hkeys := srvStep_keys_nodup cfg s e h1
  cases e with
  | connect c name =>
    rcases hf : findVal s.rooms name with _ | r
    · -- previously unseen name: a fresh room is appended
      have hnotmem := findVal_eq_none _ _ hf
      have hidpres : ∀ p ∈ s.rooms ++
          [(name, (⟨s.nextId, name, [], [], false⟩ : RoomM))],
          p.1 = name →
            p.2.id = ((⟨s.nextId, name, [], [], false⟩ :
              RoomM).addConnection c).id := by
        intro p hp hpk
        rcases List.mem_append.mp hp with hp2 | hp2
        · exact absurd (hpk ▸ List.mem_map_of_mem Prod.fst hp2) hnotmem
        · simp only [List.mem_singleton] at hp2
          rw [hp2, addConnection_id]
      have hids : ((setVal
          (s.rooms ++ [(name, (⟨s.nextId, name, [], [], false⟩ : RoomM))])
          name ((⟨s.nextId, name, [], [], false⟩ :
            RoomM).addConnection c)).map fun p => p.2.id) =
          (s.rooms.map fun p => p.2.id) ++ [s.nextId] := by
        rw [roomIds_setVal _ _ _ hidpres]
        simp
      have hchunk : ∀ id, storeCount id
          (SrvEffect.createRoom s.nextId name ::
            (if cfg.present then [SrvEffect.loadDocCall name] else [])) = 0 := by
        intro id
        by_cases hp : cfg.present <;>
          simp [hp, storeCount, List.countP_cons, isStoreFor]
      simp only [srvStep, getOrCreateRoom, hf] at hkeys ⊢
      refine ⟨hkeys, ?_, ?_, ?_, ?_⟩
      · intro p hp
        rcases mem_setVal _ _ _ _ hp with hp2 | hp2
        · rw [hp2]
          simp [addConnection_id]
        · rcases List.mem_append.mp hp2 with hp3 | hp3
          · exact Nat.lt_succ_of_lt (h2 p hp3)
          · simp only [List.mem_singleton] at hp3
            rw [hp3]
            exact Nat.lt_succ_self _
      · rw [hids, List.nodup_append]
        refine ⟨h3, by simp, fun a ha hb => ?_⟩
        simp only [List.mem_singleton] at hb
        rcases List.mem_map.mp ha with ⟨p, hp, hpa⟩
        exact absurd (hb ▸ hpa : p.2.id = s.nextId)
          (Nat.ne_of_lt (h2 p hp))
      · intro id hpos
        rw [storeCount_append, hchunk, Nat.add_zero] at hpos
        refine ⟨Nat.lt_succ_of_lt (h4 id hpos).1, ?_⟩
        intro p hp
        rcases mem_setVal _ _ _ _ hp with hp2 | hp2
        · rw [hp2]
          simp only [addConnection_id]
          exact Nat.ne_of_gt (h4 id hpos).1
        · rcases List.mem_append.mp hp2 with hp3 | hp3
          · exact (h4 id hpos).2 p hp3
          · simp only [List.mem_singleton] at hp3
            rw [hp3]
            exact Nat.ne_of_gt (h4 id hpos).1
      · intro id
        rw [storeCount_append, hchunk, Nat.add_zero]
        exact h5 id
    · -- existing room: only its connection map changes
      have hmemr := findVal_mem _ _ _ hf
      have hidpres : ∀ p ∈ s.rooms, p.1 = name →
          p.2.id = (r.addConnection c).id := by
        intro p hp hpk
        rw [findVal_unique s.rooms name r h1 hf p hp hpk, addConnection_id]
      have hids := roomIds_setVal s.rooms name (r.addConnection c) hidpres
      simp only [srvStep, getOrCreateRoom, hf, List.append_nil] at hkeys ⊢
      refine ⟨hkeys, ?_, ?_, ?_, h5⟩
      · intro p hp
        rcases mem_setVal _ _ _ _ hp with hp2 | hp2
        · rw [hp2]
          simpa [addConnection_id] using h2 (name, r) hmemr
        · exact h2 p hp2
      · rw [hids]
        exact h3
      · intro id hpos
        refine ⟨(h4 id hpos).1, ?_⟩
        intro p hp
        rcases mem_setVal _ _ _ _ hp with hp2 | hp2
        · rw [hp2]
          simpa [addConnection_id] using (h4 id hpos).2 (name, r) hmemr
        · exact (h4 id hpos).2 p hp2
  | disconnect c =>
    rcases hf : connRoom s.rooms c with _ | p0
    · simp only [srvStep, handleClose, hf, List.append_nil]
      exact ⟨h1, h2, h3, h4, h5⟩
    rcases p0 with ⟨name, rm⟩
    have hfmem : (name, rm) ∈ s.rooms := List.mem_of_find?_eq_some hf
    by_cases he : (rm.removeConnection c).1.conns.isEmpty
    · -- the room empties: it is removed from the registry and destroyed
      have hchunk : ∀ id, storeCount id
          ((rm.removeConnection c).2 ++
            RoomM.destroy cfg (rm.removeConnection c).1) =
          storeCount id (RoomM.destroy cfg (rm.removeConnection c).1) := by
        intro id
        rw [storeCount_append, storeCount_removeConnection, Nat.zero_add]
      simp only [srvStep, handleClose, hf, he, if_pos] at hkeys ⊢
      refine ⟨hkeys, ?_, ?_, ?_, ?_⟩
      · intro p hp
        exact h2 p (List.mem_of_mem_filter hp)
      · exact h3.sublist ((List.filter_sublist _).map _)
      · intro id hpos
        rw [storeCount_append, hchunk] at hpos
        by_cases hpos2 : 0 < storeCount id log
        · refine ⟨(h4 id hpos2).1, ?_⟩
          intro p hp
          exact (h4 id hpos2).2 p (List.mem_of_mem_filter hp)
        · rw [Nat.eq_zero_of_not_pos hpos2, Nat.zero_add] at hpos
          obtain ⟨hid, _⟩ := storeCount_destroy_pos _ _ _ hpos
          rw [removeConnection_id] at hid
          subst hid
          refine ⟨h2 (name, rm) hfmem, ?_⟩
          intro p hp heq
          have hpmem := List.mem_of_mem_filter hp
          have hpeq : p = (name, rm) :=
            List.inj_on_of_nodup_map h3 hpmem hfmem heq
          have hpname : p.1 ≠ name := by
            have := List.of_mem_filter hp
            simpa using this
          exact hpname (by rw [hpeq])
      · intro id
        rw [storeCount_append, hchunk]
        by_cases hpos : 0 < storeCount id
            (RoomM.destroy cfg (rm.removeConnection c).1)
        · obtain ⟨hid, _⟩ := storeCount_destroy_pos _ _ _ hpos
          rw [removeConnection_id] at hid
          subst hid
          have hold : storeCount rm.id log = 0 := by
            by_contra hc0
            have := (h4 rm.id (Nat.pos_of_ne_zero hc0)).2 (name, rm) hfmem
            exact this rfl
          rw [hold, Nat.zero_add]
          exact storeCount_destroy_le _ _ _
        · have h0 : storeCount id
              (RoomM.destroy cfg (rm.removeConnection c).1) = 0 :=
            Nat.eq_zero_of_not_pos hpos
          rw [h0, Nat.add_zero]
          exact h5 id
    · -- other connections remain: the room is written back
      have hfval : findVal s.rooms name = some rm :=
        findVal_of_mem_nodup _ _ _ h1 hfmem
      have hidpres : ∀ p ∈ s.rooms, p.1 = name →
          p.2.id = (rm.removeConnection c).1.id := by
        intro p hp hpk
        rw [findVal_unique s.rooms name rm h1 hfval p hp hpk,
          removeConnection_id]
      have hids := roomIds_setVal s.rooms name (rm.removeConnection c).1
        hidpres
      have hchunk : ∀ id, storeCount id (rm.removeConnection c).2 = 0 :=
        fun id => storeCount_removeConnection rm c id
      simp only [srvStep, handleClose, hf, he, Bool.false_eq_true, if_false]
        at hkeys ⊢
      refine ⟨hkeys, ?_, ?_, ?_, ?_⟩
      · intro p hp
        rcases mem_setVal _ _ _ _ hp with hp2 | hp2
        · rw [hp2]
          simpa [removeConnection_id] using h2 (name, rm) hfmem
        · exact h2 p hp2
      · rw [hids]
        exact h3
      · intro id hpos
        rw [storeCount_append, hchunk, Nat.add_zero] at hpos
        refine ⟨(h4 id hpos).1, ?_⟩
        intro p hp
        rcases mem_setVal _ _ _ _ hp with hp2 | hp2
        · rw [hp2]
          simpa [removeConnection_id] using (h4 id hpos).2 (name, rm) hfmem
        · exact (h4 id hpos).2 p hp2
      · intro id
        rw [storeCount_append, hchunk, Nat.add_zero]
        exact h5 id
  | docUpdate name =>
    rcases hf : findVal s.rooms name with _ | r
    · simp only [srvStep, hf, List.append_nil]
      exact ⟨h1, h2, h3, h4, h5⟩
    have hmemr := findVal_mem _ _ _ hf
    have hidpres : ∀ p ∈ s.rooms, p.1 = name →
        p.2.id = (r.handleDocUpdate cfg).1.id := by
      intro p hp hpk
      rw [findVal_unique s.rooms name r h1 hf p hp hpk]
      rfl
    have hids := roomIds_setVal s.rooms name (r.handleDocUpdate cfg).1 hidpres
    have hchunk : ∀ id, storeCount id (r.handleDocUpdate cfg).2 = 0 := by
      intro id
      by_cases hp : cfg.present && cfg.hasOnUpdate <;>
        simp [RoomM.handleDocUpdate, hp, storeCount, List.countP_cons,
          isStoreFor]
    simp only [srvStep, hf] at hkeys ⊢
    refine ⟨hkeys, ?_, ?_, ?_, ?_⟩
    · intro p hp
      rcases mem_setVal _ _ _ _ hp with hp2 | hp2
      · rw [hp2]
        exact h2 (name, r) hmemr
      · exact h2 p hp2
    · rw [hids]
      exact h3
    · intro id hpos
      rw [storeCount_append, hchunk, Nat.add_zero] at hpos
      refine ⟨(h4 id hpos).1, ?_⟩
      intro p hp
      rcases mem_setVal _ _ _ _ hp with hp2 | hp2
      · rw [hp2]
        exact (h4 id hpos).2 (name, r) hmemr
      · exact (h4 id hpos).2 p hp2
    · intro id
      rw [storeCount_append, hchunk, Nat.add_zero]
      exact h5 id

theorem removeConnection_name (r : RoomM) (c : Nat) :
    (r.removeConnection c).1.name = r.name := by
  rcases hc : findConn r.conns c with _ | ids <;>
    simp [RoomM.removeConnection, hc]

theorem srvInit_inv : SrvInv srvInit [] := by
  refine ⟨by simp [srvInit], by simp [srvInit], by simp [srvInit], ?_, ?_⟩
  · intro id hpos
    simp [storeCount] at hpos
  · intro id
    simp [storeCount]

theorem srvRun_inv (cfg : StorageCfg) :
    ∀ (evs : List SrvEvent) (s : Srv) (log : List SrvEffect),
      SrvInv s log →
        SrvInv (srvRun cfg evs s).1 (log ++ (srvRun cfg evs s).2) := by
  intro evs
  induction evs with
  | nil => intro s log h; simpa [srvRun] using h
  | cons e rest ih =>
    intro s log h
    have := ih (srvStep cfg s e).1 (log ++ (srvStep cfg s e).2)
      (srvStep_inv cfg s e log h)
    simpa [srvRun, List.append_assoc] using this

theorem storeDoc_in_step (cfg : StorageCfg) (s : Srv) (e : SrvEvent)
    (id : Nat) (nm : String)
    (h : SrvEffect.storeDocCall id nm ∈ (srvStep cfg s e).2) :
    ∃ c name rm, e = SrvEvent.disconnect c ∧
      connRoom s.rooms c = some (name, rm) ∧
      (rm.removeConnection c).1.conns.isEmpty = true ∧
      rm.isDirty = true ∧ cfg.present = true ∧ cfg.hasStoreDoc = true ∧
      id = rm.id ∧ nm = rm.name := by
  cases e with
  | connect c name =>
    rcases hf : findVal s.rooms name with _ | r
    · by_cases hp : cfg.present <;>
        simp [srvStep, getOrCreateRoom, hf, hp] at h
    · simp [srvStep, getOrCreateRoom, hf] at h
  | docUpdate name =>
    rcases hf : findVal s.rooms name with _ | r
    · simp [srvStep, hf] at h
    · by_cases hp : (cfg.present && cfg.hasOnUpdate) = true <;>
        simp [srvStep, hf, RoomM.handleDocUpdate, hp] at h
  | disconnect c =>
    rcases hf : connRoom s.rooms c with _ | p0
    · simp [srvStep, handleClose, hf] at h
    rcases p0 with ⟨name, rm⟩
    by_cases he : (rm.removeConnection c).1.conns.isEmpty
    · simp only [srvStep, handleClose, hf, he, if_pos, List.mem_append] at h
      rcases h with h | h
      · rcases hc : findConn rm.conns c with _ | ids <;>
          simp [RoomM.removeConnection, hc] at h
      · by_cases hd : ((rm.removeConnection c).1.isDirty &&
            (cfg.present && cfg.hasStoreDoc)) = true
        · rw [removeConnection_isDirty] at hd
          simp only [Bool.and_eq_true] at hd
          simp only [RoomM.destroy, removeConnection_isDirty,
            Bool.and_eq_true, hd, and_self, if_pos, List.mem_cons,
            List.mem_singleton, reduceCtorEq, false_or, or_false,
            SrvEffect.storeDocCall.injEq] at h
          rcases h with h | h
          · refine ⟨c, name, rm, rfl, hf, he, hd.1, hd.2.1, hd.2.2, ?_, ?_⟩
            · rw [h.1, removeConnection_id]
            · rw [h.2, removeConnection_name]
          · simp at h
        · simp [RoomM.destroy, hd] at h
    · simp only [srvStep, handleClose, hf, he, Bool.false_eq_true,
        if_false] at h
      rcases hc : findConn rm.conns c with _ | ids <;>
        simp [RoomM.removeConnection, hc] at h

/-- Claim C3: storeDoc is invoked at most once over a Room's lifetime,
only when the Room is dirty and a storeDoc hook is configured, and only at
destruction on last-connection departure; when the Room is not dirty or no
store hook is configured, destroy releases the document handle without
calling storeDoc. -/
theorem storeDoc_at_most_once (cfg : StorageCfg) (r : RoomM) (s : Srv)
    (e : SrvEvent) (evs : List SrvEvent) (id0 : Nat) (nm0 : String) :
    ((RoomM.destroy cfg r).countP isStore ≤ 1) ∧
      ((∃ id nm, SrvEffect.storeDocCall id nm ∈ RoomM.destroy cfg r) ↔
        (r.isDirty && (cfg.present && cfg.hasStoreDoc)) = true) ∧
      SrvEffect.releaseDoc r.id ∈ RoomM.destroy cfg r ∧
      (SrvEffect.storeDocCall id0 nm0 ∈ (srvStep cfg s e).2 →
        ∃ c name rm, e = SrvEvent.disconnect c ∧
          connRoom s.rooms c = some (name, rm) ∧
          (rm.removeConnection c).1.conns.isEmpty = true ∧
          rm.isDirty = true ∧ cfg.present = true ∧ cfg.hasStoreDoc = true ∧
          id0 = rm.id ∧ nm0 = rm.name) ∧
      (∀ id, storeCount id (srvRun cfg evs srvInit).2 ≤ 1) := by
  refine ⟨?_, ?_, ?_, storeDoc_in_step cfg s e id0 nm0, ?_⟩
  · by_cases hd : (r.isDirty && (cfg.present && cfg.hasStoreDoc)) = true <;>
      simp [RoomM.destroy, hd, List.countP_cons, isStore]
  · constructor
    · rintro ⟨id, nm, hmem⟩
      by_cases hd : (r.isDirty && (cfg.present && cfg.hasStoreDoc)) = true
      · exact hd
      · simp [RoomM.destroy, hd] at hmem
    · intro hd
      exact ⟨r.id, r.name, by simp [RoomM.destroy, hd]⟩
  · by_cases hd : (r.isDirty && (cfg.present && cfg.hasStoreDoc)) = true <;>
      simp [RoomM.destroy, hd]
  · intro id
    have hinv := srvRun_inv cfg evs srvInit [] srvInit_inv
    have := hinv.2.2.2.2 id
    simpa using this

theorem storeDoc_at_most_once_witness :
    ((RoomM.destroy ⟨true, true, true⟩
        (⟨3, "d", [], [], true⟩ : RoomM)).countP isStore ≤ 1) ∧
      (∃ id nm, SrvEffect.storeDocCall id nm ∈
        RoomM.destroy ⟨true, true, true⟩ (⟨3, "d", [], [], true⟩ : RoomM)) ∧
      SrvEffect.releaseDoc 3 ∈
        RoomM.destroy ⟨true, true, true⟩ (⟨3, "d", [], [], true⟩ : RoomM) ∧
      (∃ c name rm, SrvEvent.disconnect 1 = SrvEvent.disconnect c ∧
        connRoom (⟨[("d", (⟨3, "d", [(1, [])], [], true⟩ : RoomM))], 4⟩ :
            Srv).rooms c = some (name, rm) ∧
        (rm.removeConnection c).1.conns.isEmpty = true ∧
        rm.isDirty = true ∧
        (⟨true, true, true⟩ : StorageCfg).present = true ∧
        (⟨true, true, true⟩ : StorageCfg).hasStoreDoc = true ∧
        3 = rm.id ∧ "d" = rm.name) ∧
      storeCount 3 (srvRun ⟨true, true, true⟩
          [SrvEvent.connect 1 "d", SrvEvent.docUpdate "d",
            SrvEvent.disconnect 1] srvInit).2 ≤ 1 := by
  have T := storeDoc_at_most_once ⟨true, true, true⟩
    (⟨3, "d", [], [], true⟩ : RoomM)
    (⟨[("d", (⟨3, "d", [(1, [])], [], true⟩ : RoomM))], 4⟩ : Srv)
    (SrvEvent.disconnect 1)
    [SrvEvent.connect 1 "d", SrvEvent.docUpdate "d", SrvEvent.disconnect 1]
    3 "d"
  exact ⟨T.1, T.2.1.mpr (by decide), T.2.2.1, T.2.2.2.1 (by decide),
    T.2.2.2.2 3⟩

end YjsServer
